import Mathlib

/-!
# Formal model of `process_mods.py`

A shallow embedding of the mod-catalog processing pipeline:

* Python scalar values that occur as JSON field contents are modelled by
  `PyVal` (strings and integers).  A JSON `null` and an absent key are both
  mapped by Python's `dict.get` to `None`; the model therefore represents
  both by `Option.none`, which matches every observation the program makes
  of such a value (truthiness, `==`/`!=`, `str`).
* Python dicts are modelled as association lists in insertion order
  (`dictGet` / `dictSet` mirror `d.get(k)` / `d[k] = v`: an update keeps
  the key's position, a fresh key is appended at the end).
* The network is modelled by a function `world : String → DownloadResult`
  giving, for each attachment id (as the string substituted into
  `MOD_DOWNLOAD_TEMPLATE`), the outcome of `requests.get` on the archive:
  a successful download with a given MD5 digest of the body, a non-200
  status, or an exception during streaming/hashing.
* The per-entry loop body of `main` (lines 50-124) is `processEntry`; the
  whole loop is `runList` / `runMods`; the "SAVE OUTPUTS" section
  (lines 126-148) is `saveOutputs`.  The fields `downloads` and
  `successes` of `RunState` are observation traces recording, in order,
  the attachment ids for which an archive GET was issued, resp. for which
  a download completed and the cache record was written.
-/

/-- A Python scalar value as found in the JSON catalog / cache:
a string or an integer. -/
inductive PyVal where
  | str : String → PyVal
  | int : Int → PyVal
deriving DecidableEq, Repr

namespace PyVal

/-- Python truthiness of a scalar: `""` and `0` are falsy. -/
def truthy : PyVal → Bool
  | .str s => s ≠ ""
  | .int n => n ≠ 0

/-- Python `str()` of a scalar, as used by `f"..."` interpolation and
`str(attachment_id)`. -/
def pyStr : PyVal → String
  | .str s => s
  | .int n => toString n

end PyVal

/-- Truthiness of `d.get(k)`: `None` (absent key or JSON null) is falsy. -/
def truthyOpt : Option PyVal → Bool
  | none => false
  | some v => v.truthy

/-- One catalog entry (`item`), with the four fields `main` reads:
`item['data']['type']`, `item['data']['id']`,
`item['attachment_data']['attachment_id']`,
`item['attachment_data']['timestamp']`.  `none` = the key is absent
(or its value is JSON null). -/
structure Item where
  modType : Option String
  modId : Option PyVal
  attachmentId : Option PyVal
  timestamp : Option PyVal
deriving DecidableEq, Repr

/-- A record of `status_cache.json`: `{timestamp, md5, id}`. -/
structure CacheRecord where
  timestamp : Option PyVal
  md5 : Option PyVal
  id : Option PyVal
deriving DecidableEq, Repr

/-- Outcome of `requests.get` on an archive URL: HTTP 200 together with
the MD5 hex digest of the streamed body, a non-200 status, or an
exception raised during streaming or hashing. -/
inductive DownloadResult where
  | success : String → DownloadResult
  | httpError : DownloadResult
  | exn : DownloadResult
deriving DecidableEq, Repr

/-- `d.get(k)` on a Python dict modelled as an insertion-ordered
association list. -/
def dictGet {α : Type} : List (String × α) → String → Option α
  | [], _ => none
  | (k, v) :: rest, k' => if k = k' then some v else dictGet rest k'

/-- `d[k] = v` on a Python dict: replace in place if the key exists,
otherwise append at the end. -/
def dictSet {α : Type} : List (String × α) → String → α → List (String × α)
  | [], k, v => [(k, v)]
  | (k0, v0) :: rest, k, v =>
      if k0 = k then (k0, v) :: rest else (k0, v0) :: dictSet rest k v

/-- `get_singular_name` (lines 19-23): strip one trailing `'s'`.
`type_name.endswith('s')` holds iff the last character is `'s'`, and
`type_name[:-1]` drops the last character. -/
def get_singular_name (type_name : String) : String :=
  if type_name.toList.getLast? = some 's' then
    String.mk type_name.toList.dropLast
  else type_name

/-- The mutable state of one run of `main`: the cache dict, the two bucket
dicts, the `updates_made` flag, and two observation traces (attachment ids
of attempted archive GETs, and of successful download+hash+cache-writes). -/
structure RunState where
  status_cache : List (String × CacheRecord)
  type_buckets : List (String × List (String × Item))
  hash_buckets : List (String × List String)
  updates_made : Bool
  downloads : List String
  successes : List String
deriving DecidableEq, Repr

/-- Lines 67-68 and 72: initialize `type_buckets[singular_type]` if the
type is new, then `type_buckets[singular_type][key] = item`. -/
def addToTypeBucket (tb : List (String × List (String × Item))) (t k : String)
    (item : Item) : List (String × List (String × Item)) :=
  let tb1 := if dictGet tb t = none then dictSet tb t [] else tb
  dictSet tb1 t (dictSet ((dictGet tb1 t).getD []) k item)

/-- Lines 67 and 69: initialize `hash_buckets[singular_type]` exactly when
`singular_type not in type_buckets`. -/
def initHashBucket (tb : List (String × List (String × Item)))
    (hb : List (String × List String)) (t : String) : List (String × List String) :=
  if dictGet tb t = none then dictSet hb t [] else hb

/-- Line 124: `hash_buckets[singular_type].append(line)`. -/
def appendHashLine (hb : List (String × List String)) (t line : String) :
    List (String × List String) :=
  dictSet hb t ((dictGet hb t).getD [] ++ [line])

/-- Lines 122-124: after the per-entry branch, append
`f"{current_md5} {mod_id}"` to the hash bucket iff `current_md5` is
truthy. -/
def finishEntry (st : RunState) (singular_type : String)
    (current_md5 : Option PyVal) (mid : PyVal) : RunState :=
  match current_md5 with
  | some m =>
      if m.truthy then
        { st with hash_buckets :=
            appendHashLine st.hash_buckets singular_type (m.pyStr ++ " " ++ mid.pyStr) }
      else st
  | none => st

/-- Lines 81-117: the cache-miss path.  Issue the archive GET (recorded in
the `downloads` trace); on HTTP 200 hash the body, write
`{timestamp, md5, id}` into the cache and set `updates_made`; on a non-200
status or an exception, `continue` (buckets keep the already-added JSON
record, the hash bucket gets no line, the cache is untouched). -/
def downloadAndHash (world : String → DownloadResult) (st : RunState)
    (tb : List (String × List (String × Item))) (hb : List (String × List String))
    (singular_type aidStr : String) (ts : Option PyVal) (mid : PyVal) : RunState :=
  let downloads := st.downloads ++ [aidStr]
  match world aidStr with
  | .success h =>
      finishEntry
        ⟨dictSet st.status_cache aidStr ⟨ts, some (.str h), some mid⟩,
          tb, hb, true, downloads, st.successes ++ [aidStr]⟩
        singular_type (some (.str h)) mid
  | .httpError => ⟨st.status_cache, tb, hb, st.updates_made, downloads, st.successes⟩
  | .exn => ⟨st.status_cache, tb, hb, st.updates_made, downloads, st.successes⟩

/-- Lines 50-124: the body of `for key, item in mod_list.items()`.
Entries with a falsy (or absent) mod id or attachment id are skipped;
otherwise the entry is bucketed by its singularized type, the cache is
consulted under `str(attachment_id)`, and a download happens exactly when
there is no cache record or the cached timestamp differs. -/
def processEntry (world : String → DownloadResult) (st : RunState) (key : String)
    (item : Item) : RunState :=
  match item.modId, item.attachmentId with
  | some mid, some aid =>
      if mid.truthy && aid.truthy then
        let singular_type := get_singular_name (item.modType.getD "unknown")
        let tb := addToTypeBucket st.type_buckets singular_type key item
        let hb := initHashBucket st.type_buckets st.hash_buckets singular_type
        let aidStr := aid.pyStr
        match dictGet st.status_cache aidStr with
        | some ce =>
            if ce.timestamp = item.timestamp then
              finishEntry { st with type_buckets := tb, hash_buckets := hb }
                singular_type ce.md5 mid
            else
              downloadAndHash world st tb hb singular_type aidStr item.timestamp mid
        | none => downloadAndHash world st tb hb singular_type aidStr item.timestamp mid
      else st
  | _, _ => st

/-- The whole `for` loop, folded over the catalog in iteration order. -/
def runList (world : String → DownloadResult) (l : List (String × Item))
    (st : RunState) : RunState :=
  l.foldl (fun s p => processEntry world s p.1 p.2) st

/-- The state at line 50: the loaded cache, empty buckets, no updates. -/
def initState (cache0 : List (String × CacheRecord)) : RunState :=
  ⟨cache0, [], [], false, [], []⟩

/-- One run of `main` after the catalog fetch: the loop applied to the
catalog (as an ordered key/item list) starting from the loaded cache. -/
def runMods (world : String → DownloadResult) (mod_list : List (String × Item))
    (cache0 : List (String × CacheRecord)) : RunState :=
  runList world mod_list (initState cache0)

/-- The files written by the "SAVE OUTPUTS" section (lines 126-148):
the cache file content when it is rewritten (`none` = not rewritten),
the per-type `<type>.json` contents, and the per-type `<type>_hash.txt`
contents (`"\n".join(lines)`). -/
structure Outputs where
  cacheFile : Option (List (String × CacheRecord))
  jsonFiles : List (String × List (String × Item))
  hashFiles : List (String × String)
deriving DecidableEq, Repr

/-- Lines 126-148: the cache file is rewritten iff `updates_made`; every
bucket's JSON and hash files are always rewritten. -/
def saveOutputs (st : RunState) : Outputs :=
  ⟨if st.updates_made then some st.status_cache else none,
    st.type_buckets,
    st.hash_buckets.map (fun p => (p.1, String.intercalate "\n" p.2))⟩

/-- `not mod_id or not attachment_id` is false: the entry is processed. -/
def validB (item : Item) : Bool :=
  truthyOpt item.modId && truthyOpt item.attachmentId

/-- `str(attachment_id)`, the cache key and URL component of an entry
(only meaningful for valid entries). -/
def aidKey (item : Item) : String :=
  match item.attachmentId with
  | some a => a.pyStr
  | none => ""

/-- The normalized bucket name of an entry:
`get_singular_name(data.get('type', 'unknown'))`. -/
def singularOf (item : Item) : String :=
  get_singular_name (item.modType.getD "unknown")

/-- The hash lines accumulated so far for a type name. -/
def linesAt (st : RunState) (t : String) : List String :=
  (dictGet st.hash_buckets t).getD []

/-- The JSON bucket accumulated so far for a type name. -/
def bucketAt (st : RunState) (t : String) : List (String × Item) :=
  (dictGet st.type_buckets t).getD []

/-- The cache-miss test of line 80 (`not cache_entry or
cache_entry.get('timestamp') != timestamp`) as a boolean on the model;
there is no record for the entry's attachment id, or its timestamp
differs from the remote one. -/
def missB (cache : List (String × CacheRecord)) (item : Item) : Bool :=
  match dictGet cache (aidKey item) with
  | none => true
  | some ce => ce.timestamp ≠ item.timestamp

section DictLemmas

variable {α : Type}

theorem dictGet_dictSet_same (d : List (String × α)) (k : String) (v : α) :
    dictGet (dictSet d k v) k = some v := by
  induction d with
  | nil => simp [dictGet, dictSet]
  | cons p rest ih =>
      obtain ⟨k0, v0⟩ := p
      by_cases h : k0 = k
      · simp [dictGet, dictSet, h]
      · simp [dictGet, dictSet, h, ih]

theorem dictGet_dictSet_other (d : List (String × α)) {k k' : String} (v : α)
    (h : k ≠ k') : dictGet (dictSet d k v) k' = dictGet d k' := by
  induction d with
  | nil => simp [dictGet, dictSet, h]
  | cons p rest ih =>
      obtain ⟨k0, v0⟩ := p
      by_cases h0 : k0 = k
      · subst h0
        simp [dictGet, dictSet, h]
      · simp only [dictSet, if_neg h0, dictGet]
        by_cases h1 : k0 = k'
        · simp [h1]
        · simp [h1, ih]

theorem dictGet_isSome_iff_mem (d : List (String × α)) (k : String) :
    (dictGet d k).isSome = true ↔ k ∈ d.map Prod.fst := by
  induction d with
  | nil => simp [dictGet]
  | cons p rest ih =>
      obtain ⟨k0, v0⟩ := p
      by_cases h : k0 = k
      · simp [dictGet, h]
      · simp only [dictGet, if_neg h, List.map_cons, List.mem_cons, ih]
        constructor
        · exact fun hm => Or.inr hm
        · rintro (hm | hm)
          · exact absurd hm.symm h
          · exact hm

theorem mem_keys_dictSet (d : List (String × α)) (k k' : String) (v : α) :
    k' ∈ (dictSet d k v).map Prod.fst ↔ k' ∈ d.map Prod.fst ∨ k' = k := by
  induction d with
  | nil => simp [dictSet, eq_comm]
  | cons p rest ih =>
      obtain ⟨k0, v0⟩ := p
      by_cases h : k0 = k
      · subst h
        simp only [dictSet, if_true, eq_self_iff_true, List.map_cons, List.mem_cons]
        tauto
      · simp only [dictSet, if_neg h, List.map_cons, List.mem_cons, ih, or_assoc]

theorem length_dictSet_not_mem (d : List (String × α)) (k : String) (v : α)
    (h : k ∉ d.map Prod.fst) : (dictSet d k v).length = d.length + 1 := by
  induction d with
  | nil => simp [dictSet]
  | cons p rest ih =>
      obtain ⟨k0, v0⟩ := p
      simp only [List.map_cons, List.mem_cons, not_or] at h
      have h0 : ¬k0 = k := fun hh => h.1 hh.symm
      simp only [dictSet, if_neg h0, List.length_cons, ih h.2]

theorem length_dictSet_le (d : List (String × α)) (k : String) (v : α) :
    (dictSet d k v).length ≤ d.length + 1 := by
  induction d with
  | nil => simp [dictSet]
  | cons p rest ih =>
      obtain ⟨k0, v0⟩ := p
      by_cases h : k0 = k
      · simp [dictSet, h]
      · simpa [dictSet, h] using ih

end DictLemmas

section ProcessEntryLemmas

variable {world : String → DownloadResult} {st : RunState} {k : String} {item : Item}

theorem processEntry_not_valid (h : validB item = false) :
    processEntry world st k item = st := by
  unfold validB truthyOpt at h
  unfold processEntry
  match hm : item.modId, ha : item.attachmentId with
  | some mid, some aid =>
      rw [hm, ha] at h
      simp only [Bool.and_eq_false_eq_eq_false_or_eq_false] at h
      rcases h with h | h <;> simp [h]
  | some mid, none => rfl
  | none, some aid => rfl
  | none, none => rfl

theorem processEntry_hit {mid aid : PyVal} {ce : CacheRecord}
    (hm : item.modId = some mid) (ha : item.attachmentId = some aid)
    (hmt : mid.truthy = true) (hat : aid.truthy = true)
    (hce : dictGet st.status_cache aid.pyStr = some ce)
    (hts : ce.timestamp = item.timestamp) :
    processEntry world st k item =
      finishEntry
        { st with
            type_buckets := addToTypeBucket st.type_buckets (singularOf item) k item,
            hash_buckets := initHashBucket st.type_buckets st.hash_buckets (singularOf item) }
        (singularOf item) ce.md5 mid := by
  unfold processEntry
  rw [hm, ha]
  simp [hmt, hat, hce, hts, singularOf]

theorem processEntry_miss {mid aid : PyVal}
    (hm : item.modId = some mid) (ha : item.attachmentId = some aid)
    (hmt : mid.truthy = true) (hat : aid.truthy = true)
    (hmiss : missB st.status_cache item = true) :
    processEntry world st k item =
      downloadAndHash world st
        (addToTypeBucket st.type_buckets (singularOf item) k item)
        (initHashBucket st.type_buckets st.hash_buckets (singularOf item))
        (singularOf item) aid.pyStr item.timestamp mid := by
  unfold missB at hmiss
  unfold aidKey at hmiss
  rw [ha] at hmiss
  unfold processEntry
  rw [hm, ha]
  simp only [hmt, hat, Bool.and_self, if_pos]
  match hce : dictGet st.status_cache aid.pyStr with
  | none => simp [singularOf]
  | some ce =>
      rw [hce] at hmiss
      simp only [decide_eq_true_eq] at hmiss
      simp [hmiss, singularOf]

theorem validB_elim (h : validB item = true) :
    ∃ mid aid, item.modId = some mid ∧ item.attachmentId = some aid ∧
      mid.truthy = true ∧ aid.truthy = true := by
  unfold validB truthyOpt at h
  match hm : item.modId, ha : item.attachmentId with
  | some mid, some aid =>
      rw [hm, ha] at h
      simp only [Bool.and_eq_true] at h
      exact ⟨mid, aid, rfl, rfl, h.1, h.2⟩
  | some mid, none => rw [hm, ha] at h; simp at h
  | none, some aid => rw [hm, ha] at h; simp at h
  | none, none => rw [hm, ha] at h; simp at h

end ProcessEntryLemmas

section BranchLemmas

variable {world : String → DownloadResult} {st : RunState}
variable {σ aidStr : String} {m : Option PyVal} {v mid : PyVal}
variable {tb : List (String × List (String × Item))} {hb : List (String × List String)}

theorem finishEntry_none : finishEntry st σ none mid = st := rfl

theorem finishEntry_falsy (h : v.truthy = false) :
    finishEntry st σ (some v) mid = st := by
  simp [finishEntry, h]

theorem finishEntry_truthy (h : v.truthy = true) :
    finishEntry st σ (some v) mid =
      { st with hash_buckets :=
          appendHashLine st.hash_buckets σ (v.pyStr ++ " " ++ mid.pyStr) } := by
  simp [finishEntry, h]

theorem finishEntry_status_cache :
    (finishEntry st σ m mid).status_cache = st.status_cache := by
  unfold finishEntry
  cases m with
  | none => rfl
  | some v => by_cases h : v.truthy <;> simp [h]

theorem finishEntry_type_buckets :
    (finishEntry st σ m mid).type_buckets = st.type_buckets := by
  unfold finishEntry
  cases m with
  | none => rfl
  | some v => by_cases h : v.truthy <;> simp [h]

theorem finishEntry_updates_made :
    (finishEntry st σ m mid).updates_made = st.updates_made := by
  unfold finishEntry
  cases m with
  | none => rfl
  | some v => by_cases h : v.truthy <;> simp [h]

theorem finishEntry_downloads :
    (finishEntry st σ m mid).downloads = st.downloads := by
  unfold finishEntry
  cases m with
  | none => rfl
  | some v => by_cases h : v.truthy <;> simp [h]

theorem finishEntry_successes :
    (finishEntry st σ m mid).successes = st.successes := by
  unfold finishEntry
  cases m with
  | none => rfl
  | some v => by_cases h : v.truthy <;> simp [h]

theorem downloadAndHash_success {h : String} (hw : world aidStr = .success h)
    (ts : Option PyVal) :
    downloadAndHash world st tb hb σ aidStr ts mid =
      finishEntry
        ⟨dictSet st.status_cache aidStr ⟨ts, some (.str h), some mid⟩,
          tb, hb, true, st.downloads ++ [aidStr], st.successes ++ [aidStr]⟩
        σ (some (.str h)) mid := by
  unfold downloadAndHash
  rw [hw]

theorem downloadAndHash_fail (hw : world aidStr = .httpError ∨ world aidStr = .exn)
    (ts : Option PyVal) :
    downloadAndHash world st tb hb σ aidStr ts mid =
      ⟨st.status_cache, tb, hb, st.updates_made,
        st.downloads ++ [aidStr], st.successes⟩ := by
  unfold downloadAndHash
  rcases hw with hw | hw <;> rw [hw]

theorem dictGet_addToTypeBucket (tb : List (String × List (String × Item)))
    (t0 k : String) (item : Item) (t : String) :
    dictGet (addToTypeBucket tb t0 k item) t =
      if t0 = t then some (dictSet ((dictGet tb t0).getD []) k item)
      else dictGet tb t := by
  unfold addToTypeBucket
  by_cases htb : dictGet tb t0 = none
  · simp only [htb, if_true, eq_self_iff_true]
    rw [dictGet_dictSet_same tb t0 []]
    by_cases ht : t0 = t
    · subst ht
      rw [dictGet_dictSet_same, if_pos rfl]
      rfl
    · rw [dictGet_dictSet_other _ _ ht, dictGet_dictSet_other _ _ ht, if_neg ht]
  · simp only [htb, if_false]
    by_cases ht : t0 = t
    · subst ht
      rw [dictGet_dictSet_same, if_pos rfl]
    · rw [dictGet_dictSet_other _ _ ht, if_neg ht]

theorem initHashBucket_of_some (htb : dictGet tb σ ≠ none) :
    initHashBucket tb hb σ = hb := by
  unfold initHashBucket
  rw [if_neg htb]

theorem initHashBucket_of_none (htb : dictGet tb σ = none) :
    initHashBucket tb hb σ = dictSet hb σ [] := by
  unfold initHashBucket
  rw [if_pos htb]

theorem dictGet_initHashBucket_getD (htb : dictGet tb σ = none → dictGet hb σ = none)
    (t : String) :
    (dictGet (initHashBucket tb hb σ) t).getD [] = (dictGet hb t).getD [] := by
  unfold initHashBucket
  by_cases h : dictGet tb σ = none
  · rw [if_pos h]
    by_cases ht : σ = t
    · subst ht
      rw [dictGet_dictSet_same, htb h]
      rfl
    · rw [dictGet_dictSet_other _ _ ht]
  · rw [if_neg h]

theorem dictGet_appendHashLine (hb : List (String × List String)) (t0 line t : String) :
    dictGet (appendHashLine hb t0 line) t =
      if t0 = t then some ((dictGet hb t0).getD [] ++ [line]) else dictGet hb t := by
  unfold appendHashLine
  by_cases ht : t0 = t
  · subst ht
    rw [dictGet_dictSet_same, if_pos rfl]
  · rw [dictGet_dictSet_other _ _ ht, if_neg ht]

end BranchLemmas

/-- `str(mod_id)` as interpolated into the hash line (only meaningful for
valid entries). -/
def midStr (item : Item) : String :=
  match item.modId with
  | some mid => mid.pyStr
  | none => ""

/-- Whether the archive GET for attachment id `a` returns HTTP 200. -/
def downloadOk (world : String → DownloadResult) (a : String) : Bool :=
  match world a with
  | .success _ => true
  | _ => false

section ComponentLemmas

variable {world : String → DownloadResult} {st : RunState} {k : String} {item : Item}

theorem missB_false_elim {cache : List (String × CacheRecord)}
    (h : missB cache item = false) :
    ∃ ce, dictGet cache (aidKey item) = some ce ∧ ce.timestamp = item.timestamp := by
  unfold missB at h
  match hce : dictGet cache (aidKey item) with
  | none => rw [hce] at h; simp at h
  | some ce =>
      rw [hce] at h
      simp only [decide_eq_false_iff_not, not_not] at h
      exact ⟨ce, rfl, h⟩

theorem processEntry_cache_spec (world : String → DownloadResult) (st : RunState)
    (k : String) (item : Item) :
    (processEntry world st k item).status_cache = st.status_cache ∨
      (validB item = true ∧ missB st.status_cache item = true ∧
        ∃ h mid, world (aidKey item) = .success h ∧ item.modId = some mid ∧
          (processEntry world st k item).status_cache =
            dictSet st.status_cache (aidKey item)
              ⟨item.timestamp, some (.str h), some mid⟩) := by
  by_cases hv : validB item = true
  · obtain ⟨mid, aid, hm, ha, hmt, hat⟩ := validB_elim hv
    have haid : aidKey item = aid.pyStr := by unfold aidKey; rw [ha]
    by_cases hmiss : missB st.status_cache item = true
    · rw [processEntry_miss hm ha hmt hat hmiss]
      cases hw : world aid.pyStr with
      | success h =>
          right
          refine ⟨hv, hmiss, h, mid, ?_, hm, ?_⟩
          · rw [haid]; exact hw
          · rw [downloadAndHash_success hw, finishEntry_status_cache, haid]
      | httpError =>
          left
          rw [downloadAndHash_fail (Or.inl hw)]
      | exn =>
          left
          rw [downloadAndHash_fail (Or.inr hw)]
    · left
      obtain ⟨ce, hce, hts⟩ := missB_false_elim (by simpa using hmiss)
      have hce' : dictGet st.status_cache aid.pyStr = some ce := by
        rw [← haid]; exact hce
      rw [processEntry_hit hm ha hmt hat hce' hts, finishEntry_status_cache]
  · left
    rw [processEntry_not_valid (by simpa using hv)]

theorem processEntry_type_buckets :
    (processEntry world st k item).type_buckets =
      if validB item = true
      then addToTypeBucket st.type_buckets (singularOf item) k item
      else st.type_buckets := by
  by_cases hv : validB item = true
  · obtain ⟨mid, aid, hm, ha, hmt, hat⟩ := validB_elim hv
    rw [if_pos hv]
    by_cases hmiss : missB st.status_cache item = true
    · rw [processEntry_miss hm ha hmt hat hmiss]
      cases hw : world aid.pyStr with
      | success h => rw [downloadAndHash_success hw, finishEntry_type_buckets]
      | httpError => rw [downloadAndHash_fail (Or.inl hw)]
      | exn => rw [downloadAndHash_fail (Or.inr hw)]
    · obtain ⟨ce, hce, hts⟩ := missB_false_elim (by simpa using hmiss)
      have hce' : dictGet st.status_cache aid.pyStr = some ce := by
        rw [← show aidKey item = aid.pyStr from by unfold aidKey; rw [ha]]
        exact hce
      rw [processEntry_hit hm ha hmt hat hce' hts, finishEntry_type_buckets]
  · rw [if_neg hv, processEntry_not_valid (by simpa using hv)]

theorem processEntry_downloads :
    (processEntry world st k item).downloads =
      if validB item = true ∧ missB st.status_cache item = true
      then st.downloads ++ [aidKey item] else st.downloads := by
  by_cases hv : validB item = true
  · obtain ⟨mid, aid, hm, ha, hmt, hat⟩ := validB_elim hv
    have haid : aidKey item = aid.pyStr := by unfold aidKey; rw [ha]
    by_cases hmiss : missB st.status_cache item = true
    · rw [if_pos ⟨hv, hmiss⟩, processEntry_miss hm ha hmt hat hmiss, haid]
      cases hw : world aid.pyStr with
      | success h => rw [downloadAndHash_success hw, finishEntry_downloads]
      | httpError => rw [downloadAndHash_fail (Or.inl hw)]
      | exn => rw [downloadAndHash_fail (Or.inr hw)]
    · rw [if_neg (fun hc => hmiss hc.2)]
      obtain ⟨ce, hce, hts⟩ := missB_false_elim (by simpa using hmiss)
      have hce' : dictGet st.status_cache aid.pyStr = some ce := by
        rw [← haid]; exact hce
      rw [processEntry_hit hm ha hmt hat hce' hts, finishEntry_downloads]
  · rw [if_neg (fun hc => hv hc.1), processEntry_not_valid (by simpa using hv)]

theorem processEntry_updates_made :
    (processEntry world st k item).updates_made =
      (st.updates_made ||
        (validB item && missB st.status_cache item && downloadOk world (aidKey item))) := by
  by_cases hv : validB item = true
  · obtain ⟨mid, aid, hm, ha, hmt, hat⟩ := validB_elim hv
    have haid : aidKey item = aid.pyStr := by unfold aidKey; rw [ha]
    by_cases hmiss : missB st.status_cache item = true
    · rw [processEntry_miss hm ha hmt hat hmiss, hv, hmiss, haid]
      cases hw : world aid.pyStr with
      | success h =>
          rw [downloadAndHash_success hw, finishEntry_updates_made]
          simp [downloadOk, hw]
      | httpError =>
          rw [downloadAndHash_fail (Or.inl hw)]
          simp [downloadOk, hw]
      | exn =>
          rw [downloadAndHash_fail (Or.inr hw)]
          simp [downloadOk, hw]
    · obtain ⟨ce, hce, hts⟩ := missB_false_elim (by simpa using hmiss)
      have hce' : dictGet st.status_cache aid.pyStr = some ce := by
        rw [← haid]; exact hce
      rw [processEntry_hit hm ha hmt hat hce' hts, finishEntry_updates_made]
      have hmiss' : missB st.status_cache item = false := by simpa using hmiss
      simp [hmiss']
  · have hv' : validB item = false := by simpa using hv
    rw [processEntry_not_valid hv', hv']
    simp

theorem processEntry_successes :
    (processEntry world st k item).successes =
      st.successes ++
        (if validB item && missB st.status_cache item && downloadOk world (aidKey item)
          then [aidKey item] else []) := by
  by_cases hv : validB item = true
  · obtain ⟨mid, aid, hm, ha, hmt, hat⟩ := validB_elim hv
    have haid : aidKey item = aid.pyStr := by unfold aidKey; rw [ha]
    by_cases hmiss : missB st.status_cache item = true
    · rw [processEntry_miss hm ha hmt hat hmiss, hv, hmiss, haid]
      cases hw : world aid.pyStr with
      | success h =>
          rw [downloadAndHash_success hw, finishEntry_successes]
          simp [downloadOk, hw]
      | httpError =>
          rw [downloadAndHash_fail (Or.inl hw)]
          simp [downloadOk, hw]
      | exn =>
          rw [downloadAndHash_fail (Or.inr hw)]
          simp [downloadOk, hw]
    · obtain ⟨ce, hce, hts⟩ := missB_false_elim (by simpa using hmiss)
      have hce' : dictGet st.status_cache aid.pyStr = some ce := by
        rw [← haid]; exact hce
      rw [processEntry_hit hm ha hmt hat hce' hts, finishEntry_successes]
      have hmiss' : missB st.status_cache item = false := by simpa using hmiss
      simp [hmiss']
  · have hv' : validB item = false := by simpa using hv
    rw [processEntry_not_valid hv', hv']
    simp

end ComponentLemmas

section RunListLemmas

variable {world : String → DownloadResult} {st : RunState}

theorem runList_nil : runList world [] st = st := rfl

theorem runList_cons {k : String} {item : Item} {l : List (String × Item)} :
    runList world ((k, item) :: l) st =
      runList world l (processEntry world st k item) := rfl

/-- If the cache holds a record for `a` whose timestamp agrees with every
remaining entry that has attachment id `a`, the loop never overwrites it. -/
theorem runList_cache_stable (world : String → DownloadResult) :
    ∀ (l : List (String × Item)) (st : RunState) (a : String) (ce : CacheRecord),
      dictGet st.status_cache a = some ce →
      (∀ p ∈ l, validB p.2 = true → aidKey p.2 = a → p.2.timestamp = ce.timestamp) →
      dictGet (runList world l st).status_cache a = some ce := by
  intro l
  induction l with
  | nil => intro st a ce h _; exact h
  | cons p rest ih =>
      intro st a ce h hts
      obtain ⟨k, item⟩ := p
      rw [runList_cons]
      refine ih _ _ _ ?_ (fun q hq hqv hqa => hts q (List.mem_cons_of_mem _ hq) hqv hqa)
      rcases processEntry_cache_spec world st k item with hsp | ⟨hv, hmiss, hh, mid, hw, hm, hcs⟩
      · rw [hsp]; exact h
      · rw [hcs]
        by_cases haa : aidKey item = a
        · exfalso
          have hteq : item.timestamp = ce.timestamp :=
            hts (k, item) (List.mem_cons_self _ _) hv haa
          unfold missB at hmiss
          rw [haa, h] at hmiss
          simp only [decide_eq_true_eq] at hmiss
          exact hmiss (hteq ▸ rfl)
        · rw [dictGet_dictSet_other _ _ haa]; exact h

/-- If the download of `a` always fails, the loop never writes a cache
record under `a`. -/
theorem runList_cache_fail (world : String → DownloadResult) (a : String)
    (hfail : ∀ h, world a ≠ .success h) :
    ∀ (l : List (String × Item)) (st : RunState),
      dictGet (runList world l st).status_cache a = dictGet st.status_cache a := by
  intro l
  induction l with
  | nil => intro st; rfl
  | cons p rest ih =>
      intro st
      obtain ⟨k, item⟩ := p
      rw [runList_cons, ih]
      rcases processEntry_cache_spec world st k item with hsp | ⟨hv, hmiss, hh, mid, hw, hm, hcs⟩
      · rw [hsp]
      · rw [hcs]
        by_cases haa : aidKey item = a
        · exact absurd (haa ▸ hw) (hfail hh)
        · rw [dictGet_dictSet_other _ _ haa]

end RunListLemmas

/-- Key membership in the JSON bucket of a type name. -/
def inBucket (st : RunState) (t k : String) : Prop :=
  k ∈ (bucketAt st t).map Prod.fst

instance (st : RunState) (t k : String) : Decidable (inBucket st t k) := by
  unfold inBucket
  infer_instance

section BucketLemmas

variable {world : String → DownloadResult} {st : RunState} {k : String} {item : Item}

theorem processEntry_bucketAt (world : String → DownloadResult) (st : RunState)
    (k : String) (item : Item) (t : String) :
    bucketAt (processEntry world st k item) t =
      if validB item = true ∧ t = singularOf item
      then dictSet (bucketAt st (singularOf item)) k item
      else bucketAt st t := by
  unfold bucketAt
  rw [processEntry_type_buckets]
  by_cases hv : validB item = true
  · rw [if_pos hv, dictGet_addToTypeBucket]
    by_cases ht : singularOf item = t
    · rw [if_pos ht, if_pos ⟨hv, ht.symm⟩, ht]
      rfl
    · rw [if_neg ht, if_neg (fun hc => ht hc.2.symm)]
  · rw [if_neg hv, if_neg (fun hc => hv hc.1)]

theorem processEntry_inBucket (t k' : String) :
    inBucket (processEntry world st k item) t k' ↔
      inBucket st t k' ∨ (validB item = true ∧ k' = k ∧ t = singularOf item) := by
  unfold inBucket
  rw [processEntry_bucketAt]
  by_cases hc : validB item = true ∧ t = singularOf item
  · rw [if_pos hc, mem_keys_dictSet, hc.2]
    constructor
    · rintro (hin | hk)
      · exact Or.inl hin
      · exact Or.inr ⟨hc.1, hk, rfl⟩
    · rintro (hin | ⟨_, hk, _⟩)
      · exact Or.inl hin
      · exact Or.inr hk
  · rw [if_neg hc]
    constructor
    · exact fun hin => Or.inl hin
    · rintro (hin | ⟨hv, hk, ht⟩)
      · exact hin
      · exact absurd ⟨hv, ht⟩ hc

theorem runList_inBucket {l : List (String × Item)} :
    ∀ (st : RunState) (t k' : String),
      inBucket (runList world l st) t k' ↔
        inBucket st t k' ∨
          ∃ item, (k', item) ∈ l ∧ validB item = true ∧ t = singularOf item := by
  induction l with
  | nil =>
      intro st t k'
      rw [runList_nil]
      simp
  | cons p rest ih =>
      intro st t k'
      obtain ⟨k0, it0⟩ := p
      rw [runList_cons, ih, processEntry_inBucket]
      constructor
      · rintro ((hin | ⟨hv, hk, ht⟩) | ⟨item, hmem, hv, ht⟩)
        · exact Or.inl hin
        · exact Or.inr ⟨it0, by simp [hk], hv, ht⟩
        · exact Or.inr ⟨item, List.mem_cons_of_mem _ hmem, hv, ht⟩
      · rintro (hin | ⟨item, hmem, hv, ht⟩)
        · exact Or.inl (Or.inl hin)
        · rcases List.mem_cons.mp hmem with heq | hmem'
          · have hk : k' = k0 ∧ item = it0 := by simpa [Prod.ext_iff] using heq
            exact Or.inl (Or.inr ⟨hk.2 ▸ hv, hk.1, hk.2 ▸ ht⟩)
          · exact Or.inr ⟨item, hmem', hv, ht⟩

theorem inBucket_initState {cache0 : List (String × CacheRecord)} {t k : String} :
    ¬inBucket (initState cache0) t k := by
  unfold inBucket bucketAt initState dictGet
  simp

end BucketLemmas

section LineLemmas

variable {world : String → DownloadResult} {st : RunState} {k : String} {item : Item}

/-- The per-entry loop body either leaves a type's hash lines unchanged,
or (for a valid entry, at its singularized type) appends exactly one line
`"<hash> <mod-id>"` built from a truthy hash value that is either the
cached MD5 on a timestamp hit or the freshly computed digest of a
successful download.  The hypothesis says the entry's hash bucket cannot
pre-exist without its JSON bucket (true of every state the program
reaches, since the two are initialized together). -/
theorem processEntry_linesAt (world : String → DownloadResult) (st : RunState)
    (k : String) (item : Item)
    (hsync : dictGet st.type_buckets (singularOf item) = none →
      dictGet st.hash_buckets (singularOf item) = none) (t : String) :
    linesAt (processEntry world st k item) t = linesAt st t ∨
      (validB item = true ∧ t = singularOf item ∧
        ∃ m : PyVal, m.truthy = true ∧
          ((∃ ce, dictGet st.status_cache (aidKey item) = some ce ∧
              ce.timestamp = item.timestamp ∧ ce.md5 = some m) ∨
            (∃ h, world (aidKey item) = .success h ∧ m = .str h)) ∧
          linesAt (processEntry world st k item) t =
            linesAt st t ++ [m.pyStr ++ " " ++ midStr item]) := by
  by_cases hv : validB item = true
  · obtain ⟨mid, aid, hm, ha, hmt, hat⟩ := validB_elim hv
    have haid : aidKey item = aid.pyStr := by unfold aidKey; rw [ha]
    have hmid : midStr item = mid.pyStr := by unfold midStr; rw [hm]
    have hinit : ∀ t', (dictGet (initHashBucket st.type_buckets st.hash_buckets
        (singularOf item)) t').getD [] = linesAt st t' :=
      fun t' => dictGet_initHashBucket_getD hsync t'
    by_cases hmiss : missB st.status_cache item = true
    · rw [processEntry_miss hm ha hmt hat hmiss]
      cases hw : world aid.pyStr with
      | success h =>
          rw [downloadAndHash_success hw]
          by_cases hh : (PyVal.str h).truthy = true
          · rw [finishEntry_truthy hh]
            by_cases ht : t = singularOf item
            · right
              refine ⟨hv, ht, .str h, hh, Or.inr ⟨h, by rw [haid]; exact hw, rfl⟩, ?_⟩
              subst ht
              unfold linesAt
              simp only [dictGet_appendHashLine, if_pos rfl, hinit, hmid]
              rfl
            · left
              unfold linesAt
              simp only [dictGet_appendHashLine,
                if_neg (fun hc : singularOf item = t => ht hc.symm)]
              exact hinit t
          · rw [finishEntry_falsy (by simpa using hh)]
            left
            exact hinit t
      | httpError =>
          rw [downloadAndHash_fail (Or.inl hw)]
          left
          exact hinit t
      | exn =>
          rw [downloadAndHash_fail (Or.inr hw)]
          left
          exact hinit t
    · obtain ⟨ce, hce, hts⟩ := missB_false_elim (by simpa using hmiss)
      have hce' : dictGet st.status_cache aid.pyStr = some ce := by
        rw [← haid]; exact hce
      rw [processEntry_hit hm ha hmt hat hce' hts]
      match hmd : ce.md5 with
      | none =>
          rw [finishEntry_none]
          left
          exact hinit t
      | some m =>
          by_cases hmt' : m.truthy = true
          · rw [finishEntry_truthy hmt']
            by_cases ht : t = singularOf item
            · right
              refine ⟨hv, ht, m, hmt', Or.inl ⟨ce, hce, hts, hmd⟩, ?_⟩
              subst ht
              unfold linesAt
              simp only [dictGet_appendHashLine, if_pos rfl, hinit, hmid]
              rfl
            · left
              unfold linesAt
              simp only [dictGet_appendHashLine,
                if_neg (fun hc : singularOf item = t => ht hc.symm)]
              exact hinit t
          · rw [finishEntry_falsy (by simpa using hmt')]
            left
            exact hinit t
  · rw [processEntry_not_valid (by simpa using hv)]
    left
    rfl

end LineLemmas

section BisimLemmas

theorem finishEntry_hash_buckets {st : RunState} {σ : String} {m : Option PyVal}
    {mid : PyVal} :
    (finishEntry st σ m mid).hash_buckets =
      (match m with
        | some v =>
            if v.truthy
            then appendHashLine st.hash_buckets σ (v.pyStr ++ " " ++ mid.pyStr)
            else st.hash_buckets
        | none => st.hash_buckets) := by
  unfold finishEntry
  cases m with
  | none => rfl
  | some v => by_cases h : v.truthy <;> simp [h]

theorem missB_congr {c1 c2 : List (String × CacheRecord)} {item : Item}
    (h : dictGet c1 (aidKey item) = dictGet c2 (aidKey item)) :
    missB c1 item = missB c2 item := by
  unfold missB
  rw [h]

/-- Bisimulation between a first pass from `st1` and a second pass from a
state `st2` that carries the first pass's final cache and `st1`'s buckets:
when all entries sharing an attachment id agree on the timestamp, the
second pass never touches the cache or the `updates_made` flag and
produces exactly the same buckets. -/
theorem runList_bisim (world : String → DownloadResult) :
    ∀ (l : List (String × Item)) (st1 st2 : RunState),
      (∀ p ∈ l, ∀ q ∈ l, validB p.2 = true → validB q.2 = true →
        aidKey p.2 = aidKey q.2 → p.2.timestamp = q.2.timestamp) →
      st2.status_cache = (runList world l st1).status_cache →
      st2.type_buckets = st1.type_buckets →
      st2.hash_buckets = st1.hash_buckets →
      (runList world l st2).status_cache = st2.status_cache ∧
        (runList world l st2).type_buckets = (runList world l st1).type_buckets ∧
        (runList world l st2).hash_buckets = (runList world l st1).hash_buckets ∧
        (runList world l st2).updates_made = st2.updates_made := by
  intro l
  induction l with
  | nil =>
      intro st1 st2 hcons hc htb hhb
      rw [runList_nil] at hc
      exact ⟨rfl, htb ▸ rfl, hhb ▸ rfl, rfl⟩
  | cons p rest ih =>
      intro st1 st2 hcons hc htb hhb
      obtain ⟨k, item⟩ := p
      rw [runList_cons] at hc
      rw [runList_cons, runList_cons]
      have hcons' : ∀ p ∈ rest, ∀ q ∈ rest, validB p.2 = true → validB q.2 = true →
          aidKey p.2 = aidKey q.2 → p.2.timestamp = q.2.timestamp :=
        fun p hp q hq => hcons p (List.mem_cons_of_mem _ hp) q (List.mem_cons_of_mem _ hq)
      by_cases hv : validB item = true
      · obtain ⟨mid, aid, hm, ha, hmt, hat⟩ := validB_elim hv
        have haid : aidKey item = aid.pyStr := by unfold aidKey; rw [ha]
        by_cases hmiss : missB st1.status_cache item = true
        · -- first pass: cache miss
          rw [processEntry_miss hm ha hmt hat hmiss] at hc ⊢
          cases hw : world aid.pyStr with
          | success h =>
              -- first pass: successful download, cache record written
              rw [downloadAndHash_success hw] at hc ⊢
              have hrec : dictGet st2.status_cache aid.pyStr =
                  some ⟨item.timestamp, some (.str h), some mid⟩ := by
                rw [hc]
                refine runList_cache_stable world rest _ _ _ ?_ ?_
                · rw [finishEntry_status_cache]
                  exact dictGet_dictSet_same _ _ _
                · intro q hq hqv hqa
                  exact (hcons (k, item) (List.mem_cons_self _ _) q
                    (List.mem_cons_of_mem _ hq) hv hqv (haid.trans hqa.symm)).symm
              -- second pass: timestamp hit on the freshly written record
              rw [processEntry_hit hm ha hmt hat hrec rfl]
              have h1 : (finishEntry
                  { st2 with
                      type_buckets := addToTypeBucket st2.type_buckets (singularOf item) k item,
                      hash_buckets :=
                        initHashBucket st2.type_buckets st2.hash_buckets (singularOf item) }
                  (singularOf item)
                  (CacheRecord.mk item.timestamp (some (.str h)) (some mid)).md5
                  mid).status_cache = st2.status_cache := finishEntry_status_cache
              obtain ⟨hA, hB, hC, hD⟩ := ih _ _ hcons' (h1.trans hc)
                (by rw [finishEntry_type_buckets, finishEntry_type_buckets, htb])
                (by
                  rw [finishEntry_hash_buckets, finishEntry_hash_buckets]
                  by_cases hh : (PyVal.str h).truthy = true
                  · simp only [hh, if_true, htb, hhb]
                  · simp only [hh, if_false, htb, hhb])
              refine ⟨hA.trans h1, hB, hC, hD.trans ?_⟩
              exact finishEntry_updates_made
          | httpError =>
              rw [downloadAndHash_fail (Or.inl hw)] at hc ⊢
              have hfail : ∀ h', world aid.pyStr ≠ .success h' := by
                intro h' hcontra
                rw [hw] at hcontra
                exact DownloadResult.noConfusion hcontra
              have hsame : dictGet st2.status_cache aid.pyStr =
                  dictGet st1.status_cache aid.pyStr := by
                rw [hc, runList_cache_fail world aid.pyStr hfail]
              have hmiss2 : missB st2.status_cache item = true := by
                rw [missB_congr (show dictGet st2.status_cache (aidKey item) =
                  dictGet st1.status_cache (aidKey item) from haid ▸ hsame)]
                exact hmiss
              rw [processEntry_miss hm ha hmt hat hmiss2, downloadAndHash_fail (Or.inl hw)]
              exact ih _ _ hcons' hc (by rw [htb]) (by rw [htb, hhb])
          | exn =>
              rw [downloadAndHash_fail (Or.inr hw)] at hc ⊢
              have hfail : ∀ h', world aid.pyStr ≠ .success h' := by
                intro h' hcontra
                rw [hw] at hcontra
                exact DownloadResult.noConfusion hcontra
              have hsame : dictGet st2.status_cache aid.pyStr =
                  dictGet st1.status_cache aid.pyStr := by
                rw [hc, runList_cache_fail world aid.pyStr hfail]
              have hmiss2 : missB st2.status_cache item = true := by
                rw [missB_congr (show dictGet st2.status_cache (aidKey item) =
                  dictGet st1.status_cache (aidKey item) from haid ▸ hsame)]
                exact hmiss
              rw [processEntry_miss hm ha hmt hat hmiss2, downloadAndHash_fail (Or.inr hw)]
              exact ih _ _ hcons' hc (by rw [htb]) (by rw [htb, hhb])
        · -- first pass: cache hit
          obtain ⟨ce, hce, hts⟩ := missB_false_elim (by simpa using hmiss)
          have hce1 : dictGet st1.status_cache aid.pyStr = some ce := by
            rw [← haid]; exact hce
          rw [processEntry_hit hm ha hmt hat hce1 hts] at hc ⊢
          have hce2 : dictGet st2.status_cache aid.pyStr = some ce := by
            rw [hc]
            refine runList_cache_stable world rest _ _ _ ?_ ?_
            · rw [finishEntry_status_cache]
              exact hce1
            · intro q hq hqv hqa
              have := hcons (k, item) (List.mem_cons_self _ _) q
                (List.mem_cons_of_mem _ hq) hv hqv (haid.trans hqa.symm)
              rw [← this, hts]
          rw [processEntry_hit hm ha hmt hat hce2 hts]
          have h1 : (finishEntry
              { st2 with
                  type_buckets := addToTypeBucket st2.type_buckets (singularOf item) k item,
                  hash_buckets :=
                    initHashBucket st2.type_buckets st2.hash_buckets (singularOf item) }
              (singularOf item) ce.md5 mid).status_cache = st2.status_cache :=
            finishEntry_status_cache
          obtain ⟨hA, hB, hC, hD⟩ := ih _ _ hcons' (h1.trans hc)
            (by rw [finishEntry_type_buckets, finishEntry_type_buckets, htb])
            (by
              rw [finishEntry_hash_buckets, finishEntry_hash_buckets]
              cases ce.md5 with
              | none => simp only [htb, hhb]
              | some v =>
                  by_cases hvt : v.truthy = true
                  · simp only [hvt, if_true, htb, hhb]
                  · simp only [hvt, if_false, htb, hhb])
          refine ⟨hA.trans h1, hB, hC, hD.trans ?_⟩
          exact finishEntry_updates_made
      · rw [processEntry_not_valid (by simpa using hv)] at hc ⊢
        rw [processEntry_not_valid (by simpa using hv)]
        exact ih _ _ hcons' hc htb hhb

end BisimLemmas

section InvariantLemmas

variable {world : String → DownloadResult} {st : RunState} {k : String} {item : Item}

theorem validB_intro {mid aid : PyVal} (hm : item.modId = some mid)
    (ha : item.attachmentId = some aid) (hmt : mid.truthy = true)
    (hat : aid.truthy = true) : validB item = true := by
  unfold validB truthyOpt
  rw [hm, ha]
  simp [hmt, hat]

theorem dictGet_initHashBucket_other
    {tb : List (String × List (String × Item))} {hb : List (String × List String)}
    {σ t : String} (ht : σ ≠ t) :
    dictGet (initHashBucket tb hb σ) t = dictGet hb t := by
  unfold initHashBucket
  by_cases h : dictGet tb σ = none
  · rw [if_pos h, dictGet_dictSet_other _ _ ht]
  · rw [if_neg h]

theorem processEntry_hash_buckets_other {t : String} (ht : t ≠ singularOf item) :
    dictGet (processEntry world st k item).hash_buckets t = dictGet st.hash_buckets t := by
  have ht' : singularOf item ≠ t := fun hc => ht hc.symm
  by_cases hv : validB item = true
  · obtain ⟨mid, aid, hm, ha, hmt, hat⟩ := validB_elim hv
    by_cases hmiss : missB st.status_cache item = true
    · rw [processEntry_miss hm ha hmt hat hmiss]
      cases hw : world aid.pyStr with
      | success h =>
          rw [downloadAndHash_success hw, finishEntry_hash_buckets]
          by_cases hh : (PyVal.str h).truthy = true
          · simp only [hh, if_true]
            rw [dictGet_appendHashLine, if_neg ht', dictGet_initHashBucket_other ht']
          · simp only [hh, if_false]
            exact dictGet_initHashBucket_other ht'
      | httpError =>
          rw [downloadAndHash_fail (Or.inl hw)]
          exact dictGet_initHashBucket_other ht'
      | exn =>
          rw [downloadAndHash_fail (Or.inr hw)]
          exact dictGet_initHashBucket_other ht'
    · obtain ⟨ce, hce, hts⟩ := missB_false_elim (by simpa using hmiss)
      have hce' : dictGet st.status_cache aid.pyStr = some ce := by
        rw [← show aidKey item = aid.pyStr from by unfold aidKey; rw [ha]]
        exact hce
      rw [processEntry_hit hm ha hmt hat hce' hts, finishEntry_hash_buckets]
      cases ce.md5 with
      | none => exact dictGet_initHashBucket_other ht'
      | some v =>
          by_cases hvt : v.truthy = true
          · simp only [hvt, if_true]
            rw [dictGet_appendHashLine, if_neg ht', dictGet_initHashBucket_other ht']
          · simp only [hvt, if_false]
            exact dictGet_initHashBucket_other ht'
  · rw [processEntry_not_valid (by simpa using hv)]

/-- The program initializes a type's hash bucket exactly when it
initializes its JSON bucket, so a state whose hash buckets never outrun
its type buckets steps to another such state. -/
theorem processEntry_sync
    (hsync : ∀ t, dictGet st.type_buckets t = none → dictGet st.hash_buckets t = none)
    (t : String)
    (htb : dictGet (processEntry world st k item).type_buckets t = none) :
    dictGet (processEntry world st k item).hash_buckets t = none := by
  by_cases hv : validB item = true
  · rw [processEntry_type_buckets, if_pos hv, dictGet_addToTypeBucket] at htb
    by_cases ht : singularOf item = t
    · rw [if_pos ht] at htb
      exact Option.noConfusion htb
    · rw [if_neg ht] at htb
      rw [processEntry_hash_buckets_other (fun hc => ht hc.symm)]
      exact hsync t htb
  · rw [processEntry_not_valid (by simpa using hv)] at htb ⊢
    exact hsync t htb

theorem processEntry_updates_iff
    (h : st.updates_made = true ↔ st.successes ≠ []) :
    (processEntry world st k item).updates_made = true ↔
      (processEntry world st k item).successes ≠ [] := by
  rw [processEntry_updates_made, processEntry_successes]
  by_cases hb : (validB item && missB st.status_cache item &&
      downloadOk world (aidKey item)) = true
  · rw [hb]
    simp
  · have hb' : (validB item && missB st.status_cache item &&
        downloadOk world (aidKey item)) = false := by simpa using hb
    rw [hb']
    simpa using h

theorem runList_updates_iff :
    ∀ (l : List (String × Item)) (st : RunState),
      (st.updates_made = true ↔ st.successes ≠ []) →
      ((runList world l st).updates_made = true ↔ (runList world l st).successes ≠ []) := by
  intro l
  induction l with
  | nil => intro st h; exact h
  | cons p rest ih =>
      intro st h
      obtain ⟨k, item⟩ := p
      rw [runList_cons]
      exact ih _ (processEntry_updates_iff h)

theorem nodup_keys_eq :
    ∀ {l : List (String × Item)}, (l.map Prod.fst).Nodup →
      ∀ {k : String} {a b : Item}, (k, a) ∈ l → (k, b) ∈ l → a = b := by
  intro l
  induction l with
  | nil => intro _ k a b ha _; exact absurd ha (List.not_mem_nil _)
  | cons p rest ih =>
      intro hnd k a b ha hb
      obtain ⟨k0, c⟩ := p
      rw [List.map_cons, List.nodup_cons] at hnd
      rcases List.mem_cons.mp ha with ha' | ha' <;>
        rcases List.mem_cons.mp hb with hb' | hb'
      · have h1 : a = c := (Prod.ext_iff.mp ha').2
        have h2 : b = c := (Prod.ext_iff.mp hb').2
        rw [h1, h2]
      · exfalso
        have hk : k = k0 := (Prod.ext_iff.mp ha').1
        have hmem : k ∈ rest.map Prod.fst := List.mem_map_of_mem Prod.fst hb'
        exact hnd.1 (hk ▸ hmem)
      · exfalso
        have hk : k = k0 := (Prod.ext_iff.mp hb').1
        have hmem : k ∈ rest.map Prod.fst := List.mem_map_of_mem Prod.fst ha'
        exact hnd.1 (hk ▸ hmem)
      · exact ih hnd.2 ha' hb'

/-- Fold invariant for the per-type hash-line bound: as long as keys are
unique and every key already bucketed does not reappear in the remaining
catalog, each type's hash lines never outnumber its JSON entries. -/
theorem runList_lines_le (world : String → DownloadResult) :
    ∀ (l : List (String × Item)) (st : RunState),
      (∀ t, (linesAt st t).length ≤ (bucketAt st t).length) →
      (∀ t k', k' ∈ (bucketAt st t).map Prod.fst → k' ∉ l.map Prod.fst) →
      (l.map Prod.fst).Nodup →
      (∀ t, dictGet st.type_buckets t = none → dictGet st.hash_buckets t = none) →
      ∀ t, (linesAt (runList world l st) t).length ≤
        (bucketAt (runList world l st) t).length := by
  intro l
  induction l with
  | nil => intro st hle _ _ _ t; exact hle t
  | cons p rest ih =>
      intro st hle hfresh hnd hsync
      obtain ⟨k, item⟩ := p
      rw [List.map_cons, List.nodup_cons] at hnd
      rw [runList_cons]
      by_cases hv : validB item = true
      · refine ih _ ?_ ?_ hnd.2 (processEntry_sync hsync)
        · intro t
          have hbk := processEntry_bucketAt world st k item t
          rw [if_congr (iff_of_eq (congrArg (fun b => b = true ∧
            t = singularOf item) hv)) rfl rfl] at hbk
          have hln := processEntry_linesAt world st k item (hsync (singularOf item)) t
          by_cases ht : t = singularOf item
          · have hkfresh : k ∉ (bucketAt st (singularOf item)).map Prod.fst := by
              intro hk
              exact hfresh _ k hk (by simp)
            rw [hbk, if_pos ⟨rfl, ht⟩,
              length_dictSet_not_mem _ _ _ hkfresh]
            rcases hln with heq | ⟨_, _, m, _, _, happ⟩
            · rw [heq]
              exact le_trans (hle t) (ht ▸ Nat.le_succ _)
            · rw [happ, List.length_append]
              simpa using ht ▸ hle (singularOf item)
          · rw [hbk, if_neg (fun hc => ht hc.2)]
            rcases hln with heq | ⟨_, ht', _⟩
            · rw [heq]
              exact hle t
            · exact absurd ht' ht
        · intro t k' hk' hmem
          have hbk := processEntry_bucketAt world st k item t
          by_cases ht : t = singularOf item
          · rw [hbk, if_pos ⟨hv, ht⟩] at hk'
            rcases (mem_keys_dictSet _ _ _ _).mp hk' with hold | hknew
            · exact hfresh _ k' (ht ▸ hold) (by simp [hmem])
            · exact hnd.1 (hknew ▸ hmem)
          · rw [hbk, if_neg (fun hc => ht hc.2)] at hk'
            exact hfresh _ k' hk' (by simp [hmem])
      · have hv' : validB item = false := by simpa using hv
        rw [processEntry_not_valid hv']
        refine ih _ hle ?_ hnd.2 hsync
        intro t k' hk' hmem
        exact hfresh t k' hk' (by simp [hmem])

end InvariantLemmas

-- Sanity check: one fresh entry of type "players", successful download.
example :
    runMods (fun _ => .success "h1")
      [("k1", ⟨some "players", some (.str "p1"), some (.str "a1"), some (.str "t1")⟩)] [] =
    ⟨[("a1", ⟨some (.str "t1"), some (.str "h1"), some (.str "p1")⟩)],
      [("player", [("k1", ⟨some "players", some (.str "p1"), some (.str "a1"), some (.str "t1")⟩)])],
      [("player", ["h1 p1"])], true, ["a1"], ["a1"]⟩ := by
  decide

/-! ## Concrete fixtures used by counterexamples and witnesses -/

/-- A valid catalog entry: type `"players"`, mod id `"p1"`, attachment
`"a1"`, timestamp `"t1"`. -/
def itemP1 : Item := ⟨some "players", some (.str "p1"), some (.str "a1"), some (.str "t1")⟩

/-- A second valid entry sharing attachment `"a1"` but carrying a
different timestamp `"t2"`. -/
def itemP2 : Item := ⟨some "players", some (.str "p2"), some (.str "a1"), some (.str "t2")⟩

/-- An entry whose mod id is present but falsy (`0`). -/
def itemZeroId : Item := ⟨some "players", some (.int 0), some (.str "a1"), some (.str "t1")⟩

/-- A valid entry with no `type` field. -/
def itemNoType : Item := ⟨none, some (.str "p1"), some (.str "a1"), some (.str "t1")⟩

/-- A network where every archive GET succeeds with digest `"h1"`. -/
def worldH : String → DownloadResult := fun _ => .success "h1"

/-- A network where every archive GET returns a non-200 status. -/
def worldErr : String → DownloadResult := fun _ => .httpError

/-- A cache holding `"a1"` at timestamp `"t1"` with md5 `"h0"`. -/
def cacheHit1 : List (String × CacheRecord) :=
  [("a1", ⟨some (.str "t1"), some (.str "h0"), some (.str "p1")⟩)]

/-- A cache holding `"a1"` at timestamp `"t1"` but with no md5 value. -/
def cacheNoMd5 : List (String × CacheRecord) :=
  [("a1", ⟨some (.str "t1"), none, some (.str "p1")⟩)]

/-! ## Claims -/

/-- Claim C9 (confirmed): an entry whose mod identifier or attachment
identifier is present but falsy (empty string, zero, or null — which our
model identifies with an absent key) is treated the same as one where the
field is absent: the loop body leaves the state completely unchanged, so
the entry contributes no JSON record, no hash line and no cache change. -/
theorem falsy_id_entry_skipped {world : String → DownloadResult} {st : RunState}
    {k : String} {item : Item}
    (h : truthyOpt item.modId = false ∨ truthyOpt item.attachmentId = false) :
    processEntry world st k item = st := by
  apply processEntry_not_valid
  unfold validB
  rcases h with h | h <;> simp [h]

/-- Witness for C9: the entry with mod id `0` is skipped outright. -/
theorem falsy_id_entry_skipped_witness :
    processEntry worldH (initState []) "k1" itemZeroId = initState [] :=
  falsy_id_entry_skipped (Or.inl (by decide))

/-- Claim C10 (confirmed): a valid entry with no `type` field is not
skipped; it is bucketed under `"unknown"` (which `get_singular_name`
leaves unchanged), and every hash bucket other than `"unknown"` is left
untouched, so its JSON record and any hash line go to the `"unknown"`
outputs. -/
theorem missing_type_goes_to_unknown {world : String → DownloadResult}
    {st : RunState} {k : String} {item : Item} {mid aid : PyVal}
    (hty : item.modType = none)
    (hm : item.modId = some mid) (ha : item.attachmentId = some aid)
    (hmt : mid.truthy = true) (hat : aid.truthy = true) :
    singularOf item = "unknown" ∧
    get_singular_name "unknown" = "unknown" ∧
    inBucket (processEntry world st k item) "unknown" k ∧
    (∀ t, t ≠ "unknown" →
      dictGet (processEntry world st k item).hash_buckets t = dictGet st.hash_buckets t) := by
  have hσ : singularOf item = "unknown" := by
    unfold singularOf
    rw [hty]
    decide
  refine ⟨hσ, by decide, ?_, ?_⟩
  · rw [processEntry_inBucket]
    exact Or.inr ⟨validB_intro hm ha hmt hat, rfl, hσ.symm⟩
  · intro t ht
    exact processEntry_hash_buckets_other (hσ ▸ ht)

/-- Witness for C10: the type-less entry lands in the `"unknown"` bucket
and other hash buckets are unchanged. -/
theorem missing_type_goes_to_unknown_witness :
    singularOf itemNoType = "unknown" ∧
    get_singular_name "unknown" = "unknown" ∧
    inBucket (processEntry worldH (initState []) "k1" itemNoType) "unknown" "k1" ∧
    (∀ t, t ≠ "unknown" →
      dictGet (processEntry worldH (initState []) "k1" itemNoType).hash_buckets t =
        dictGet (initState []).hash_buckets t) :=
  missing_type_goes_to_unknown rfl rfl rfl (by decide) (by decide)

/-- Claim C5 (confirmed): when the entry is a cache miss and the download
returns a non-success status or raises, the whole cache — in particular
the record under the entry's attachment id — is exactly as before the
attempt: no failed attempt is recorded, nothing is modified or deleted. -/
theorem download_fail_leaves_cache {world : String → DownloadResult}
    {st : RunState} {k : String} {item : Item} {mid aid : PyVal}
    (hm : item.modId = some mid) (ha : item.attachmentId = some aid)
    (hmt : mid.truthy = true) (hat : aid.truthy = true)
    (hmiss : missB st.status_cache item = true)
    (hw : world (aidKey item) = .httpError ∨ world (aidKey item) = .exn) :
    (processEntry world st k item).status_cache = st.status_cache ∧
    dictGet (processEntry world st k item).status_cache (aidKey item) =
      dictGet st.status_cache (aidKey item) := by
  have haid : aidKey item = aid.pyStr := by unfold aidKey; rw [ha]
  rw [processEntry_miss hm ha hmt hat hmiss]
  rw [haid] at hw
  rw [downloadAndHash_fail hw]
  exact ⟨rfl, rfl⟩

/-- Witness for C5: a failed download of a fresh entry leaves the (empty)
cache empty. -/
theorem download_fail_leaves_cache_witness :
    (processEntry worldErr (initState []) "k1" itemP1).status_cache =
      (initState []).status_cache ∧
    dictGet (processEntry worldErr (initState []) "k1" itemP1).status_cache
        (aidKey itemP1) =
      dictGet (initState []).status_cache (aidKey itemP1) :=
  download_fail_leaves_cache rfl rfl (by decide) (by decide) (by decide)
    (Or.inl (by decide))

/-- Counterexample to claim C1: with an empty cache and a network that
answers every archive GET with a non-200 status, the single valid entry's
download is attempted and fails, yet its JSON record IS in the `"player"`
bucket — the claim asserts the record is not added, so the claim is false
(the code buckets the record at line 72, before the download attempt). -/
theorem download_fail_record_still_bucketed_cex :
    bucketAt (runMods worldErr [("k1", itemP1)] []) "player" = [("k1", itemP1)] ∧
    (runMods worldErr [("k1", itemP1)] []).downloads = ["a1"] ∧
    (runMods worldErr [("k1", itemP1)] []).successes = [] ∧
    linesAt (runMods worldErr [("k1", itemP1)] []) "player" = [] := by
  decide

/-- Claim C1 (amended): for a valid entry whose download fails (non-200
status or exception), the entry's JSON record IS added to its per-type
bucket — bucketing happens before the download attempt — while the entry
contributes no hash line, and the cache and `updates_made` flag are left
untouched.  The last hypothesis says the entry's hash bucket cannot
pre-exist without its JSON bucket, which holds in every reachable state. -/
theorem download_fail_keeps_json_record {world : String → DownloadResult}
    {st : RunState} {k : String} {item : Item} {mid aid : PyVal}
    (hm : item.modId = some mid) (ha : item.attachmentId = some aid)
    (hmt : mid.truthy = true) (hat : aid.truthy = true)
    (hmiss : missB st.status_cache item = true)
    (hw : world (aidKey item) = .httpError ∨ world (aidKey item) = .exn)
    (hsync : dictGet st.type_buckets (singularOf item) = none →
      dictGet st.hash_buckets (singularOf item) = none) :
    inBucket (processEntry world st k item) (singularOf item) k ∧
    (∀ t, linesAt (processEntry world st k item) t = linesAt st t) ∧
    (processEntry world st k item).status_cache = st.status_cache ∧
    (processEntry world st k item).updates_made = st.updates_made := by
  have haid : aidKey item = aid.pyStr := by unfold aidKey; rw [ha]
  have hv : validB item = true := validB_intro hm ha hmt hat
  refine ⟨?_, ?_, ?_, ?_⟩
  · rw [processEntry_inBucket]
    exact Or.inr ⟨hv, rfl, rfl⟩
  · intro t
    rw [processEntry_miss hm ha hmt hat hmiss, downloadAndHash_fail (haid ▸ hw)]
    exact dictGet_initHashBucket_getD hsync t
  · rw [processEntry_miss hm ha hmt hat hmiss, downloadAndHash_fail (haid ▸ hw)]
  · rw [processEntry_miss hm ha hmt hat hmiss, downloadAndHash_fail (haid ▸ hw)]

/-- Witness for the amended C1: the failing entry is bucketed, no hash
line appears, cache and flag untouched. -/
theorem download_fail_keeps_json_record_witness :
    inBucket (processEntry worldErr (initState []) "k1" itemP1)
      (singularOf itemP1) "k1" ∧
    (∀ t, linesAt (processEntry worldErr (initState []) "k1" itemP1) t =
      linesAt (initState []) t) ∧
    (processEntry worldErr (initState []) "k1" itemP1).status_cache =
      (initState []).status_cache ∧
    (processEntry worldErr (initState []) "k1" itemP1).updates_made =
      (initState []).updates_made :=
  download_fail_keeps_json_record rfl rfl (by decide) (by decide) (by decide)
    (Or.inl (by decide)) (by decide)

/-- Claim C8 (confirmed): on a timestamp hit whose cached record lacks a
truthy `md5` value, no download is attempted, no hash line is emitted
anywhere, the JSON record is still bucketed, and the cache and
`updates_made` flag are unchanged. -/
theorem hit_without_md5_no_line {world : String → DownloadResult}
    {st : RunState} {k : String} {item : Item} {mid aid : PyVal} {ce : CacheRecord}
    (hm : item.modId = some mid) (ha : item.attachmentId = some aid)
    (hmt : mid.truthy = true) (hat : aid.truthy = true)
    (hce : dictGet st.status_cache (aidKey item) = some ce)
    (hts : ce.timestamp = item.timestamp)
    (hmd : truthyOpt ce.md5 = false)
    (hsync : dictGet st.type_buckets (singularOf item) = none →
      dictGet st.hash_buckets (singularOf item) = none) :
    (processEntry world st k item).downloads = st.downloads ∧
    (∀ t, linesAt (processEntry world st k item) t = linesAt st t) ∧
    inBucket (processEntry world st k item) (singularOf item) k ∧
    (processEntry world st k item).status_cache = st.status_cache ∧
    (processEntry world st k item).updates_made = st.updates_made := by
  have haid : aidKey item = aid.pyStr := by unfold aidKey; rw [ha]
  have hce' : dictGet st.status_cache aid.pyStr = some ce := by rw [← haid]; exact hce
  have hfin : processEntry world st k item =
      { st with
          type_buckets := addToTypeBucket st.type_buckets (singularOf item) k item,
          hash_buckets := initHashBucket st.type_buckets st.hash_buckets (singularOf item) } := by
    rw [processEntry_hit hm ha hmt hat hce' hts]
    cases hmd5 : ce.md5 with
    | none => exact finishEntry_none
    | some v =>
        rw [hmd5] at hmd
        exact finishEntry_falsy (by simpa using hmd)
  refine ⟨?_, ?_, ?_, ?_, ?_⟩
  · rw [hfin]
  · intro t
    rw [hfin]
    exact dictGet_initHashBucket_getD hsync t
  · rw [processEntry_inBucket]
    exact Or.inr ⟨validB_intro hm ha hmt hat, rfl, rfl⟩
  · rw [hfin]
  · rw [hfin]

/-- Witness for C8: a hit on a cached record without md5 emits nothing
and downloads nothing, but the record is bucketed. -/
theorem hit_without_md5_no_line_witness :
    (processEntry worldH (initState cacheNoMd5) "k1" itemP1).downloads =
      (initState cacheNoMd5).downloads ∧
    (∀ t, linesAt (processEntry worldH (initState cacheNoMd5) "k1" itemP1) t =
      linesAt (initState cacheNoMd5) t) ∧
    inBucket (processEntry worldH (initState cacheNoMd5) "k1" itemP1)
      (singularOf itemP1) "k1" ∧
    (processEntry worldH (initState cacheNoMd5) "k1" itemP1).status_cache =
      (initState cacheNoMd5).status_cache ∧
    (processEntry worldH (initState cacheNoMd5) "k1" itemP1).updates_made =
      (initState cacheNoMd5).updates_made :=
  @hit_without_md5_no_line worldH (initState cacheNoMd5) "k1" itemP1
    (.str "p1") (.str "a1") ⟨some (.str "t1"), none, some (.str "p1")⟩
    rfl rfl (by decide) (by decide) (by decide) (by decide) (by decide) (by decide)

/-- Claim C2 (confirmed): for a valid entry, the archive GET trace grows
by exactly the entry's attachment id iff there is no cache record for it
or the cached timestamp differs; on a timestamp hit no download occurs
and, when the cached md5 is truthy, the hash line appended at the entry's
type is built from the cached hash. -/
theorem download_iff_cache_miss {world : String → DownloadResult}
    {st : RunState} {k : String} {item : Item} {mid aid : PyVal}
    (hm : item.modId = some mid) (ha : item.attachmentId = some aid)
    (hmt : mid.truthy = true) (hat : aid.truthy = true)
    (hsync : dictGet st.type_buckets (singularOf item) = none →
      dictGet st.hash_buckets (singularOf item) = none) :
    ((processEntry world st k item).downloads = st.downloads ++ [aidKey item] ↔
      missB st.status_cache item = true) ∧
    (∀ ce, dictGet st.status_cache (aidKey item) = some ce →
      ce.timestamp = item.timestamp →
      (processEntry world st k item).downloads = st.downloads ∧
      (∀ m, ce.md5 = some m → m.truthy = true →
        linesAt (processEntry world st k item) (singularOf item) =
          linesAt st (singularOf item) ++ [m.pyStr ++ " " ++ mid.pyStr])) := by
  have hv : validB item = true := validB_intro hm ha hmt hat
  have haid : aidKey item = aid.pyStr := by unfold aidKey; rw [ha]
  constructor
  · rw [processEntry_downloads]
    constructor
    · intro heq
      by_cases hmiss : missB st.status_cache item = true
      · exact hmiss
      · rw [if_neg (fun hc => hmiss hc.2)] at heq
        have hlen := congrArg List.length heq
        simp at hlen
    · intro hmiss
      rw [if_pos ⟨hv, hmiss⟩]
  · intro ce hce hts
    have hmiss : missB st.status_cache item = false := by
      unfold missB
      rw [hce]
      simp [hts]
    have hce' : dictGet st.status_cache aid.pyStr = some ce := by
      rw [← haid]; exact hce
    constructor
    · rw [processEntry_downloads, if_neg (fun hc => Bool.false_ne_true (hmiss ▸ hc.2))]
    · intro m hmd hmt'
      rw [processEntry_hit hm ha hmt hat hce' hts, hmd, finishEntry_truthy hmt']
      have hinit : ∀ t', (dictGet (initHashBucket st.type_buckets st.hash_buckets
          (singularOf item)) t').getD [] = linesAt st t' :=
        fun t' => dictGet_initHashBucket_getD hsync t'
      unfold linesAt
      simp only [dictGet_appendHashLine, if_pos rfl, hinit]
      rfl

/-- Witness for C2: a hit (cached timestamp `"t1"` equals the remote one)
performs no download and reuses the cached hash `"h0"`. -/
theorem download_iff_cache_miss_witness :
    (((processEntry worldH (initState cacheHit1) "k1" itemP1).downloads =
        (initState cacheHit1).downloads ++ [aidKey itemP1] ↔
      missB (initState cacheHit1).status_cache itemP1 = true) ∧
    (∀ ce, dictGet (initState cacheHit1).status_cache (aidKey itemP1) = some ce →
      ce.timestamp = itemP1.timestamp →
      (processEntry worldH (initState cacheHit1) "k1" itemP1).downloads =
        (initState cacheHit1).downloads ∧
      (∀ m, ce.md5 = some m → m.truthy = true →
        linesAt (processEntry worldH (initState cacheHit1) "k1" itemP1)
            (singularOf itemP1) =
          linesAt (initState cacheHit1) (singularOf itemP1) ++
            [m.pyStr ++ " " ++ (PyVal.str "p1").pyStr]))) :=
  download_iff_cache_miss rfl rfl (by decide) (by decide) (by decide)

/-- Claim C3 (confirmed): the cache file is rewritten by the save phase
iff the run recorded at least one successful download (the `successes`
trace is nonempty); a run with no successful download leaves the cache
file untouched. -/
theorem cache_rewritten_iff_download_succeeded (world : String → DownloadResult)
    (mod_list : List (String × Item)) (cache0 : List (String × CacheRecord)) :
    ((saveOutputs (runMods world mod_list cache0)).cacheFile ≠ none ↔
      (runMods world mod_list cache0).successes ≠ []) ∧
    ((runMods world mod_list cache0).successes = [] →
      (saveOutputs (runMods world mod_list cache0)).cacheFile = none) := by
  have hiff := @runList_updates_iff world mod_list (initState cache0)
    (by simp [initState])
  have hcf : (saveOutputs (runMods world mod_list cache0)).cacheFile ≠ none ↔
      (runMods world mod_list cache0).updates_made = true := by
    unfold saveOutputs
    by_cases hu : (runMods world mod_list cache0).updates_made = true
    · simp [hu]
    · have hu' : (runMods world mod_list cache0).updates_made = false := by
        simpa using hu
      simp [hu']
  refine ⟨hcf.trans hiff, fun hs => ?_⟩
  by_contra hne
  exact (hcf.trans hiff).mp hne hs

/-- Claim C6 (confirmed): with unique catalog keys, the per-type JSON
buckets partition the valid entries: every bucketed key is a catalog key,
a valid entry's key lies in exactly the bucket of its singularized type,
and no key lies in two buckets. -/
theorem type_buckets_partition (world : String → DownloadResult)
    (mod_list : List (String × Item)) (cache0 : List (String × CacheRecord))
    (hnodup : (mod_list.map Prod.fst).Nodup) :
    (∀ t k, inBucket (runMods world mod_list cache0) t k →
      k ∈ mod_list.map Prod.fst) ∧
    (∀ k item, (k, item) ∈ mod_list → validB item = true →
      ∀ t, inBucket (runMods world mod_list cache0) t k ↔ t = singularOf item) ∧
    (∀ t1 t2 k, inBucket (runMods world mod_list cache0) t1 k →
      inBucket (runMods world mod_list cache0) t2 k → t1 = t2) := by
  have hchar : ∀ t k, inBucket (runMods world mod_list cache0) t k ↔
      ∃ item, (k, item) ∈ mod_list ∧ validB item = true ∧ t = singularOf item := by
    intro t k
    unfold runMods
    rw [runList_inBucket]
    constructor
    · rintro (hin | h)
      · exact absurd hin inBucket_initState
      · exact h
    · exact Or.inr
  refine ⟨?_, ?_, ?_⟩
  · intro t k hin
    obtain ⟨item, hmem, _, _⟩ := (hchar t k).mp hin
    exact List.mem_map_of_mem Prod.fst hmem
  · intro k item hmem hv t
    rw [hchar t k]
    constructor
    · rintro ⟨item', hmem', hv', ht'⟩
      rw [ht', nodup_keys_eq hnodup hmem' hmem]
    · intro ht
      exact ⟨item, hmem, hv, ht⟩
  · intro t1 t2 k hin1 hin2
    obtain ⟨i1, hm1, _, ht1⟩ := (hchar t1 k).mp hin1
    obtain ⟨i2, hm2, _, ht2⟩ := (hchar t2 k).mp hin2
    rw [ht1, ht2, nodup_keys_eq hnodup hm1 hm2]

/-- Witness for C6: on a one-entry catalog the bucketed keys are catalog
keys. -/
theorem type_buckets_partition_witness :
    ([("k1", itemP1)].map Prod.fst).Nodup ∧
    (∀ t k, inBucket (runMods worldH [("k1", itemP1)] []) t k →
      k ∈ [("k1", itemP1)].map Prod.fst) :=
  ⟨by decide, (type_buckets_partition worldH [("k1", itemP1)] [] (by decide)).1⟩

/-- Claim C7 (confirmed): with unique catalog keys, each type's hash
lines never outnumber its JSON entries; and per entry a hash line is
appended only at the entry's own type and only from an available truthy
hash — the cached md5 on a timestamp hit or the digest of a successful
download — so failed or skipped downloads contribute no line. -/
theorem hash_lines_bounded (world : String → DownloadResult)
    (mod_list : List (String × Item)) (cache0 : List (String × CacheRecord))
    (hnodup : (mod_list.map Prod.fst).Nodup) :
    (∀ t, (linesAt (runMods world mod_list cache0) t).length ≤
      (bucketAt (runMods world mod_list cache0) t).length) ∧
    (∀ (st : RunState) (k : String) (item : Item),
      (dictGet st.type_buckets (singularOf item) = none →
        dictGet st.hash_buckets (singularOf item) = none) →
      ∀ t, linesAt (processEntry world st k item) t = linesAt st t ∨
        (validB item = true ∧ t = singularOf item ∧
          ∃ m : PyVal, m.truthy = true ∧
            ((∃ ce, dictGet st.status_cache (aidKey item) = some ce ∧
                ce.timestamp = item.timestamp ∧ ce.md5 = some m) ∨
              (∃ h, world (aidKey item) = .success h ∧ m = .str h)) ∧
            linesAt (processEntry world st k item) t =
              linesAt st t ++ [m.pyStr ++ " " ++ midStr item])) := by
  constructor
  · unfold runMods
    refine runList_lines_le world mod_list (initState cache0) ?_ ?_ hnodup ?_
    · intro t
      simp [linesAt, bucketAt, initState, dictGet]
    · intro t k' hk'
      simp [bucketAt, initState, dictGet] at hk'
    · intro t _
      rfl
  · intro st k item hsync t
    exact processEntry_linesAt world st k item hsync t

/-- Witness for C7: on a one-entry catalog the line count is bounded by
the bucket size for every type. -/
theorem hash_lines_bounded_witness :
    ([("k1", itemP1)].map Prod.fst).Nodup ∧
    (∀ t, (linesAt (runMods worldH [("k1", itemP1)] []) t).length ≤
      (bucketAt (runMods worldH [("k1", itemP1)] []) t).length) :=
  ⟨by decide, (hash_lines_bounded worldH [("k1", itemP1)] [] (by decide)).1⟩

/-- Counterexample to claim C4: two entries share attachment `"a1"` with
different timestamps.  With the catalog and the network unchanged and the
second run starting from exactly the cache the first run wrote, the first
entry is again a cache miss on the second run, downloads again and sets
`updates_made`, so the second run DOES rewrite the cache file — the claim
asserts it does not. -/
theorem second_run_rewrites_cache_cex :
    (saveOutputs (runMods worldH [("k1", itemP1), ("k2", itemP2)]
      (runMods worldH [("k1", itemP1), ("k2", itemP2)] []).status_cache)).cacheFile ≠
      none := by
  decide

/-- Claim C4 (amended): provided no two valid catalog entries share an
attachment id with different timestamps, running the pipeline twice with
an unchanged catalog, unchanged network and the cache carried over from
the first run produces identical per-type JSON and hash files on the
second run, does not rewrite the cache file, and leaves the cache mapping
itself unchanged. -/
theorem second_run_identical (world : String → DownloadResult)
    (mod_list : List (String × Item)) (cache0 : List (String × CacheRecord))
    (hcons : ∀ p ∈ mod_list, ∀ q ∈ mod_list, validB p.2 = true → validB q.2 = true →
      aidKey p.2 = aidKey q.2 → p.2.timestamp = q.2.timestamp) :
    (saveOutputs (runMods world mod_list
        (runMods world mod_list cache0).status_cache)).jsonFiles =
      (saveOutputs (runMods world mod_list cache0)).jsonFiles ∧
    (saveOutputs (runMods world mod_list
        (runMods world mod_list cache0).status_cache)).hashFiles =
      (saveOutputs (runMods world mod_list cache0)).hashFiles ∧
    (saveOutputs (runMods world mod_list
        (runMods world mod_list cache0).status_cache)).cacheFile = none ∧
    (runMods world mod_list
        (runMods world mod_list cache0).status_cache).status_cache =
      (runMods world mod_list cache0).status_cache := by
  obtain ⟨hA, hB, hC, hD⟩ := runList_bisim world mod_list (initState cache0)
    (initState (runMods world mod_list cache0).status_cache) hcons rfl rfl rfl
  have hu : (runMods world mod_list
      (runMods world mod_list cache0).status_cache).updates_made = false := hD
  refine ⟨hB,
    congrArg (List.map (fun p : String × List String =>
      (p.1, String.intercalate "\n" p.2))) hC, ?_, hA⟩
  simp [saveOutputs, hu]

/-- Witness for the amended C4: a one-entry catalog trivially satisfies
the timestamp-consistency hypothesis, and the second run does not rewrite
the cache file. -/
theorem second_run_identical_witness :
    (∀ p ∈ [("k1", itemP1)], ∀ q ∈ [("k1", itemP1)],
      validB p.2 = true → validB q.2 = true →
      aidKey p.2 = aidKey q.2 → p.2.timestamp = q.2.timestamp) ∧
    (saveOutputs (runMods worldH [("k1", itemP1)]
      (runMods worldH [("k1", itemP1)] []).status_cache)).cacheFile = none :=
  ⟨by decide, (second_run_identical worldH [("k1", itemP1)] [] (by decide)).2.2.1⟩
